import Mathlib

/-
  Verification of the smallsh command interpreter (src/smallsh.c).

  The development shallowly embeds the parts of the program that the
  properties below are about: the environment table maintained through
  setenv/getenv, the tokenizer (wordsplit), the parameter expander
  (param_scan, expand), the command parser (parse_command), the exit
  built-in (builtin_exit), the signal-disposition bookkeeping
  (SIGTSTP_setup, SIGINT_setup and the child restoration), the parent
  half of the non-built-in executor, and the background reaper
  (bg_handler).  Machine strings are lists of characters; the C string
  terminator is modelled explicitly where the scanning code depends on
  it; reads that the C code performs outside the line buffer are
  modelled by an Option-valued result, none meaning such a read occurred.
-/

namespace Smallsh

/-! Environment table: the process environment as an association list,
    with the overwrite semantics of setenv(name, value, 1). -/

abbrev Env := List (String × String)

def getenv : Env → String → Option String
  | [], _ => none
  | (k, v) :: e, q => if k = q then some v else getenv e q

def setenv : Env → String → String → Env
  | [], k, v => [(k, v)]
  | (k0, v0) :: e, k, v => if k0 = k then (k, v) :: e else (k0, v0) :: setenv e k v

/-! Character classification used by the tokenizer: the characters for
    which the C isspace is true in the POSIX locale. -/

def nulc : Char := Char.ofNat 0

def isspaceC (ch : Char) : Bool :=
  ch = ' ' || ch = '\t' || ch = '\n' || ch = '\x0b' || ch = '\x0c' || ch = '\r'

/-! Command parser, from parse_command in the source: copy tokens into
    the argument vector, skipping each redirection operator together
    with the token after it; then test the last vector entry for the
    background marker.  The C code reads words_argv[words_argc - 1]
    with size_t arithmetic, so a vector left empty by the skipping pass
    makes it read far outside the allocation: that read is modelled by
    the none result.  The argv field models the written region of the
    C array words_argv, a none entry being the NULL terminator. -/

def isRedir (w : String) : Bool := w = ">" || w = "<" || w = ">>"

def skipRedirs : List String → List String
  | [] => []
  | [w] => if isRedir w then [] else [w]
  | w :: x :: ws =>
    if isRedir w then skipRedirs ws else w :: skipRedirs (x :: ws)

/-! Tokenizer, from wordsplit in the source.  The scanned memory is the
    line followed by its terminating NUL; the scan consumes that list
    from the front.  An attempt to read once the terminator has been
    consumed corresponds to the C code reading outside the line buffer
    and yields none for the whole call.  wsWord is the inner word loop:
    on a backslash it advances and copies the following character
    unconditionally, even when that character is the terminator. -/

def wsWord : List Char → List Char → Option (List Char × List Char)
  | _, [] => none
  | acc, [ch] =>
    if ch = nulc then some (acc, [ch])
    else if isspaceC ch then some (acc, [ch])
    else none
  | acc, ch :: ch2 :: rest =>
    if ch = nulc then some (acc, ch :: ch2 :: rest)
    else if isspaceC ch then some (acc, ch :: ch2 :: rest)
    else if ch = '\\' then wsWord (acc ++ [ch2]) rest
    else wsWord (acc ++ [ch]) (ch2 :: rest)

def wsSkipSpace : List Char → Option (List Char)
  | [] => none
  | ch :: rest =>
    if ch = nulc then some (ch :: rest)
    else if isspaceC ch then wsSkipSpace rest
    else some (ch :: rest)

def wsLoop : Nat → Nat → List (List Char) → List Char → Option (List (List Char))
  | 0, _, _, _ => none
  | _ + 1, _, _, [] => none
  | fuel + 1, wind, toks, ch :: rest =>
    if ch = nulc then some toks
    else if wind = 512 then some toks
    else if ch = '#' then some toks
    else
      match wsWord [] (ch :: rest) with
      | none => none
      | some (w, rest2) =>
        match wsSkipSpace rest2 with
        | none => none
        | some rest3 => wsLoop fuel (wind + 1) (toks ++ [w]) rest3

def wordsplit (line : List Char) : Option (List (List Char)) :=
  match wsSkipSpace (line ++ [nulc]) with
  | none => none
  | some rest => wsLoop rest.length 0 [] rest

/-! Expander, from param_scan, build_str and expand in the source.
    param_scan walks the word looking for a dollar sign; two-character
    references are matched on the following character, and an opening
    brace is matched only when a closing brace occurs later (findBrace).
    When the candidate at a dollar sign fails to match, scanning resumes
    with the character after that dollar sign, exactly as the loop in
    the source advances.  expand stitches the unmatched text and the
    resolved values together; the fuel argument only bounds the
    iteration count and equals the word length, which suffices because
    every match consumes at least two characters. -/

def findBrace : List Char → Option (List Char × List Char)
  | [] => none
  | ch :: r =>
    if ch = '}' then some ([], r)
    else
      match findBrace r with
      | some (b, a) => some (ch :: b, a)
      | none => none

def param_scan : List Char → Option (List Char × Char × List Char × List Char)
  | [] => none
  | ch :: r =>
    if ch = '$' then
      match r with
      | [] => none
      | c2 :: r2 =>
        if c2 = '$' || c2 = '!' || c2 = '?' then some ([], c2, [], r2)
        else if c2 = '{' then
          match findBrace r2 with
          | some (name, after) => some ([], '{', name, after)
          | none =>
            match param_scan r with
            | some (pre, k, n, rest) => some (ch :: pre, k, n, rest)
            | none => none
        else
          match param_scan r with
          | some (pre, k, n, rest) => some (ch :: pre, k, n, rest)
          | none => none
    else
      match param_scan r with
      | some (pre, k, n, rest) => some (ch :: pre, k, n, rest)
      | none => none

def refValue (env : Env) (k : Char) (name : List Char) : List Char :=
  if k = '$' then ((getenv env "$").getD "").toList
  else if k = '!' then ((getenv env "!").getD "").toList
  else if k = '?' then ((getenv env "?").getD "0").toList
  else ((getenv env (String.mk name)).getD "").toList

def expandFuel (env : Env) : Nat → List Char → List Char
  | 0, w => w
  | fuel + 1, w =>
    match param_scan w with
    | none => w
    | some (pre, k, name, rest) => pre ++ refValue env k name ++ expandFuel env fuel rest

def expandL (env : Env) (w : List Char) : List Char :=
  expandFuel env w.length w

structure ParsedCmd where
  argv : List (Option String)
  args : List String
  bg : Bool
deriving DecidableEq, Repr

def parse_command (tokens : List String) : Option ParsedCmd :=
  let a := skipRedirs tokens
  match a.getLast? with
  | none => none
  | some w =>
    if w = "&" then some ⟨(a.dropLast.map some) ++ [none], a.dropLast, true⟩
    else some ⟨(a.map some) ++ [none], a, false⟩

/-! The exit built-in, from builtin_exit in the source, together with a
    model of strtol with base argument 0: optional leading whitespace
    and sign, a 0x or 0X prefix followed by a hexadecimal digit selects
    base 16, an other leading 0 selects base 8, anything else base 10;
    when no digit is consumed the value is 0 and the end pointer is the
    original string; the value saturates at the bounds of a 64-bit
    long.  toIntC is the conversion of that long to a 32-bit int.
    The C function reaches exit() on every path, so the code field of
    the outcome is always some value; a none code would mean control
    returns to the caller. -/

def hexVal (ch : Char) : Option Nat :=
  if '0' ≤ ch ∧ ch ≤ '9' then some (ch.toNat - Char.toNat '0')
  else if 'a' ≤ ch ∧ ch ≤ 'f' then some (ch.toNat - Char.toNat 'a' + 10)
  else if 'A' ≤ ch ∧ ch ≤ 'F' then some (ch.toNat - Char.toNat 'A' + 10)
  else none

def digitInBase (base : Nat) (ch : Char) : Option Nat :=
  match hexVal ch with
  | some v => if v < base then some v else none
  | none => none

def takeDigits (base : Nat) (acc : Nat) (cnt : Nat) : List Char → Nat × Nat × List Char
  | [] => (acc, cnt, [])
  | ch :: r =>
    match digitInBase base ch with
    | some v => takeDigits base (acc * base + v) (cnt + 1) r
    | none => (acc, cnt, ch :: r)

def LONG_MAX : Int := 2 ^ 63 - 1

def LONG_MIN : Int := -(2 ^ 63)

def strtol0 (s : List Char) : Int × List Char :=
  let s1 := s.dropWhile isspaceC
  let sgn : Int :=
    match s1 with
    | c :: _ => if c = '-' then -1 else 1
    | [] => 1
  let s2 : List Char :=
    match s1 with
    | c :: r => if c = '-' || c = '+' then r else s1
    | [] => []
  let hexStart : Bool :=
    match s2 with
    | c0 :: c1 :: c2 :: _ => c0 = '0' && (c1 = 'x' || c1 = 'X') && (hexVal c2).isSome
    | _ => false
  let bs : Nat × List Char :=
    if hexStart then (16, s2.drop 2)
    else
      match s2 with
      | c0 :: _ => if c0 = '0' then (8, s2) else (10, s2)
      | [] => (10, [])
  let r := takeDigits bs.1 0 0 bs.2
  if r.2.1 = 0 then (0, s)
  else
    let v : Int := sgn * (r.1 : Int)
    (if v > LONG_MAX then LONG_MAX else if v < LONG_MIN then LONG_MIN else v, r.2.2)

def toIntC (v : Int) : Int := (v + 2 ^ 31) % 2 ^ 32 - 2 ^ 31

structure ExitOutcome where
  msgs : List String
  env : Env
  code : Option Int
deriving DecidableEq, Repr

def builtin_exit (env : Env) (argv : List String) : ExitOutcome :=
  match argv with
  | [_, a1] =>
    let r := strtol0 a1.toList
    if r.2.isEmpty then ⟨[], env, some (toIntC r.1)⟩
    else
      ⟨["smallsh: exit: " ++ a1 ++ ": integer argument required\n"],
        setenv env "?" "1", some (toIntC r.1)⟩
  | _ =>
    let tooMany := argv.length > 2
    let env1 := if tooMany then setenv env "?" "1" else env
    let msgs := if tooMany then ["smallsh: exit: too many arguments\n"] else []
    let code : Int :=
      match getenv env1 "?" with
      | none => 0
      | some st => toIntC (strtol0 st.toList).1
    ⟨msgs, env1, some code⟩

/-! Signal dispositions, from SIGTSTP_setup, SIGINT_setup, the
    post-getline sigaction call in main, and the two restoring
    sigaction calls in the child branch of execute_nonbuiltin_cmds.
    Each setup call first reads the current disposition into the
    saved-default global, then installs the interpreter disposition,
    storing the previous one (the same current disposition) into that
    same global.  The net effect per call is: saved := current;
    current := interpreter disposition.  The child restores the two
    saved globals before exec.  loopIter is the disposition activity of
    one main-loop iteration up to the point where a child could be
    spawned; stateAtIter n is the global state at that point of
    iteration n, counting from 0. -/

inductive Disp
  | dflt
  | ign
  | handler
deriving DecidableEq, Repr

structure SigState where
  intCur : Disp
  tstpCur : Disp
  intSaved : Disp
  tstpSaved : Disp
deriving DecidableEq, Repr

def SIGTSTP_setup (s : SigState) : SigState :=
  { s with tstpSaved := s.tstpCur, tstpCur := .ign }

def SIGINT_setup (s : SigState) : SigState :=
  { s with intSaved := s.intCur, intCur := .handler }

def afterGetline (s : SigState) : SigState :=
  { s with intCur := .ign }

def loopIter (s : SigState) : SigState :=
  afterGetline (SIGINT_setup (SIGTSTP_setup s))

def stateAtIter (init : SigState) : Nat → SigState
  | 0 => loopIter init
  | n + 1 => loopIter (stateAtIter init n)

def childDisps (s : SigState) : Disp × Disp :=
  (s.intSaved, s.tstpSaved)

/-! Parent half of execute_nonbuiltin_cmds, from the default branch of
    the switch on fork.  WaitStatus is the decoded result of waitpid on
    the child; calls lists the waitpid calls the parent performs, true
    marking WNOHANG; sigconts lists the pids sent SIGCONT. -/

inductive WaitStatus
  | exited (code : Nat)
  | signaled (sig : Nat)
  | stopped
deriving DecidableEq, Repr

structure ParentResult where
  env : Env
  calls : List Bool
  msgs : List String
  sigconts : List Nat
deriving DecidableEq, Repr

def parent_after_fork (bg : Bool) (pid : Nat) (st : WaitStatus) (env : Env) : ParentResult :=
  if bg then
    { env := setenv env "!" (toString pid), calls := [true], msgs := [], sigconts := [] }
  else
    match st with
    | .signaled sg =>
      { env := setenv env "?" (toString (128 + sg)), calls := [false], msgs := [], sigconts := [] }
    | .stopped =>
      { env := setenv env "!" (toString pid), calls := [false],
        msgs := ["Child process " ++ toString pid ++ " stopped. Continuing.\n"],
        sigconts := [pid] }
    | .exited n =>
      { env := setenv env "?" (toString n), calls := [false], msgs := [], sigconts := [] }

/-! Background reaper, from bg_handler in the source, and the
    interpreter state it runs in.  The state carries the process-group
    id returned by getpgrp together with ppgid, the value saved at
    interpreter start.  ShellOp enumerates every mutation of this
    global state performed anywhere in the source between reaper runs:
    environment updates through setenv, assignment of the background
    flag in parse_command, and the working-directory change of the cd
    built-in.  No operation in the source calls setpgid or otherwise
    changes the process group.  bg_handler reports each reaped child
    only under the guard comparing getpgrp with ppgid, as the source
    does; bg_reaper_spec is the reaper the specification describes,
    reporting unconditionally. -/

inductive BgOut
  | line (s : String)
  | sigcont (pid : Nat)
deriving DecidableEq, Repr

def bg_report (pid : Nat) (st : WaitStatus) : List BgOut :=
  match st with
  | .exited n =>
    [.line ("Child process " ++ toString pid ++ " done. Exit status " ++ toString n ++ ".\n")]
  | .signaled sg =>
    [.line ("Child process " ++ toString pid ++ " done. Signaled " ++ toString sg ++ ".\n")]
  | .stopped =>
    [.sigcont pid, .line ("Child process " ++ toString pid ++ " stopped. Continuing.\n")]

structure InterpState where
  env : Env
  bg_flag : Bool
  cwd : String
  pgid : Nat
  ppgid : Nat
deriving DecidableEq, Repr

inductive ShellOp
  | setVar (k v : String)
  | setBgFlag (b : Bool)
  | chdir (p : String)
deriving DecidableEq, Repr

def applyOp (s : InterpState) (op : ShellOp) : InterpState :=
  match op with
  | .setVar k v => { s with env := setenv s.env k v }
  | .setBgFlag b => { s with bg_flag := b }
  | .chdir p => { s with cwd := p }

def initState (g : Nat) (e : Env) (d : String) : InterpState :=
  { env := e, bg_flag := false, cwd := d, pgid := g, ppgid := g }

def bg_handler (s : InterpState) (evs : List (Nat × WaitStatus)) : List BgOut :=
  (evs.map (fun e => if s.pgid = s.ppgid then bg_report e.1 e.2 else [])).flatten

def bg_reaper_spec (evs : List (Nat × WaitStatus)) : List BgOut :=
  (evs.map (fun e => bg_report e.1 e.2)).flatten

/-! A pair predicate on words used to state the amended expansion
    claim: no dollar sign is immediately followed by a second dollar
    sign, an exclamation mark or a question mark. -/

def noRefPairs : List Char → Bool
  | [] => true
  | [_] => true
  | a :: b :: r => (!(a = '$' && (b = '$' || b = '!' || b = '?'))) && noRefPairs (b :: r)

/-- A character the tokenizer treats as an ordinary word constituent:
not whitespace, not the escape character, not the string terminator. -/
def plainChar (ch : Char) : Prop :=
  isspaceC ch = false ∧ ch ≠ '\\' ∧ ch ≠ nulc

instance (ch : Char) : Decidable (plainChar ch) := by
  unfold plainChar; infer_instance

/-! Lemmas about the environment table. -/

theorem getenv_setenv_self (e : Env) (k v : String) : getenv (setenv e k v) k = some v := by
  induction e with
  | nil => simp [setenv, getenv]
  | cons p e ih =>
    by_cases h : p.1 = k
    · simp [setenv, getenv, h]
    · simp [setenv, getenv, h, ih]

theorem getenv_setenv_ne (e : Env) (k v q : String) (h : k ≠ q) :
    getenv (setenv e k v) q = getenv e q := by
  induction e with
  | nil => simp [setenv, getenv, h]
  | cons p e ih =>
    by_cases h0 : p.1 = k
    · simp [setenv, getenv, h0, h]
    · simp [setenv, getenv, h0, ih]

/-- C1: the claim states that on an exit built-in error (more than one
argument, or a single non-integer argument) the interpreter reports the
error, sets the exit-status parameter and continues to the next prompt.
The code reports the error and sets the parameter but then still calls
exit on every path: with the arguments exit 1 2 it terminates the
interpreter with status 1, and with exit abc it terminates with status 0
(the partial strtol conversion of abc).  A code value of some c below is
a call of exit(c); a continuing invocation would have code none. -/
theorem builtin_exit_terminates_on_error :
    (builtin_exit [("?", "0")] ["exit", "1", "2"]).code = some 1 ∧
    (builtin_exit [("?", "0")] ["exit", "1", "2"]).msgs =
      ["smallsh: exit: too many arguments\n"] ∧
    getenv (builtin_exit [("?", "0")] ["exit", "1", "2"]).env "?" = some "1" ∧
    (builtin_exit [("?", "0")] ["exit", "abc"]).code = some 0 ∧
    (builtin_exit [("?", "0")] ["exit", "abc"]).msgs =
      ["smallsh: exit: abc: integer argument required\n"] ∧
    getenv (builtin_exit [("?", "0")] ["exit", "abc"]).env "?" = some "1" := by
  decide

/-- C2: the claim states that on every interpreter loop iteration the
spawned child restores the pre-interpreter SIGINT and SIGTSTP
dispositions.  Starting from default dispositions, the child of the
first iteration indeed restores the defaults, but the child of the
second iteration restores SIG_IGN for both signals: each per-iteration
setup call saves the current disposition, which from the second
iteration on is the one the interpreter itself installed. -/
theorem child_dispositions_after_first_iteration :
    childDisps (stateAtIter ⟨Disp.dflt, Disp.dflt, Disp.dflt, Disp.dflt⟩ 0) =
      (Disp.dflt, Disp.dflt) ∧
    childDisps (stateAtIter ⟨Disp.dflt, Disp.dflt, Disp.dflt, Disp.dflt⟩ 1) =
      (Disp.ign, Disp.ign) := by
  decide

/-- C9: the claim states that the argument vector is never empty before
its last element is tested, and that the first-argument lookup of the
dispatcher stays within the vector.  For the token sequence of the line
"< file" the skipping pass removes every token, the vector is empty and
the C code reads words_argv[(size_t)0 - 1], modelled by the none
result; for the line consisting only of the background marker the
vector is non-empty before the test but the dispatch then reads a NULL
first argument (the argv model holds only the terminator). -/
theorem parse_command_empty_vector_oob :
    parse_command ["<", "file"] = none ∧
    parse_command ["&"] = some ⟨[none], [], true⟩ := by
  decide

/-- C10: the claim states that the tokenizer never reads past the
terminating NUL of the line.  For the line "ab\" (a backslash as the
final character, as read from a script file whose last line has no
newline) the escape consumes the terminator and the word loop then
reads the position after it; the model returns none for such a read. -/
theorem wordsplit_trailing_backslash_oob :
    wordsplit ['a', 'b', '\\'] = none := by
  decide

/-- C6 counterexample: the claim states that a word containing an
unterminated parameter-brace reference is preserved literally.  In the
word made of the four characters dollar, open brace, dollar, question
mark there is no closing brace, yet expansion rewrites it: scanning
resumes after the unmatched dollar sign and substitutes the inner
exit-status reference, producing dollar, open brace, zero. -/
theorem expand_unterminated_counterexample :
    expandL [] ['$', '{', '$', '?'] = ['$', '{', '0'] ∧
    expandL [] ['$', '{', '$', '?'] ≠ ['$', '{', '$', '?'] := by
  decide

/-- C3: for a foreground (background flag clear) non-built-in command,
a child that exits with code N sets the exit-status parameter to the
decimal string of N, and a child terminated by signal S sets it to the
decimal string of 128 + S. -/
theorem foreground_status_param (env : Env) (pid n sg : Nat) (_hn : n ≤ 255) :
    getenv (parent_after_fork false pid (WaitStatus.exited n) env).env "?" =
      some (toString n) ∧
    getenv (parent_after_fork false pid (WaitStatus.signaled sg) env).env "?" =
      some (toString (128 + sg)) := by
  constructor <;> simp [parent_after_fork, getenv_setenv_self]

/-- Witness for C3 at a child exiting with code 7 and one killed by
signal 9. -/
theorem foreground_status_param_witness :
    7 ≤ 255 ∧
    (getenv (parent_after_fork false 5 (WaitStatus.exited 7) []).env "?" =
      some (toString 7) ∧
    getenv (parent_after_fork false 5 (WaitStatus.signaled 9) []).env "?" =
      some (toString (128 + 9))) :=
  ⟨by decide, foreground_status_param [] 5 7 9 (by decide)⟩

/-- C4: for a background (background flag set) non-built-in command the
parent performs exactly one status check, which is non-blocking (the
single true entry records the WNOHANG flag), records the child id as
the background-pid parameter, and leaves the exit-status parameter
unchanged, whatever the status of the child was. -/
theorem background_launch_effects (env : Env) (pid : Nat) (st : WaitStatus) :
    (parent_after_fork true pid st env).calls = [true] ∧
    getenv (parent_after_fork true pid st env).env "?" = getenv env "?" ∧
    getenv (parent_after_fork true pid st env).env "!" = some (toString pid) := by
  refine ⟨rfl, ?_, ?_⟩
  · simp [parent_after_fork]
    exact getenv_setenv_ne env "!" (toString pid) "?" (by decide)
  · simp [parent_after_fork, getenv_setenv_self]

/-- No interpreter operation changes the process-group fields. -/
theorem applyOp_pg (s : InterpState) (op : ShellOp) :
    (applyOp s op).pgid = s.pgid ∧ (applyOp s op).ppgid = s.ppgid := by
  cases op <;> simp [applyOp]

/-- The process-group fields are invariant under any sequence of
interpreter operations. -/
theorem foldl_applyOp_pg (ops : List ShellOp) (s : InterpState) :
    (ops.foldl applyOp s).pgid = s.pgid ∧ (ops.foldl applyOp s).ppgid = s.ppgid := by
  induction ops generalizing s with
  | nil => exact ⟨rfl, rfl⟩
  | cons op ops ih =>
    rw [List.foldl_cons]
    exact ⟨((ih (applyOp s op)).1).trans (applyOp_pg s op).1,
      ((ih (applyOp s op)).2).trans (applyOp_pg s op).2⟩

/-- C8: from the initial state, in which the saved ppgid is the current
process-group id, and after any sequence of the state mutations the
source performs (none of which reassigns the process group), the guard
in the background reaper comparing getpgrp with the saved ppgid holds,
so the reaper as written emits exactly the reports and continue signals
of the unconditional reaper, for every list of reaped children. -/
theorem bg_handler_guard_redundant (g : Nat) (e : Env) (d : String)
    (ops : List ShellOp) (evs : List (Nat × WaitStatus)) :
    bg_handler (ops.foldl applyOp (initState g e d)) evs = bg_reaper_spec evs := by
  have h := foldl_applyOp_pg ops (initState g e d)
  have hpg : (ops.foldl applyOp (initState g e d)).pgid =
      (ops.foldl applyOp (initState g e d)).ppgid := by
    rw [h.1, h.2]; rfl
  simp [bg_handler, bg_reaper_spec, hpg]

/-- The skipping pass keeps a subsequence of the token list. -/
theorem skipRedirs_sublist : ∀ ts : List String, List.Sublist (skipRedirs ts) ts
  | [] => by simp [skipRedirs]
  | [w] => by
    by_cases h : isRedir w <;> simp [skipRedirs, h]
  | w :: x :: ws => by
    by_cases h : isRedir w
    · simp only [skipRedirs, h, if_pos]
      exact ((skipRedirs_sublist ws).cons x).cons w
    · simp only [skipRedirs, h, if_neg, Bool.false_eq_true, not_false_iff]
      exact (skipRedirs_sublist (x :: ws)).cons₂ w

/-- No redirection operator survives the skipping pass: an operator
either starts a skip or is consumed as the target of the operator
before it. -/
theorem skipRedirs_not_redir : ∀ (ts : List String), ∀ w ∈ skipRedirs ts, isRedir w = false
  | [], w, h => by simp [skipRedirs] at h
  | [x], w, h => by
    by_cases hr : isRedir x
    · simp [skipRedirs, hr] at h
    · simp [skipRedirs, hr] at h
      subst h
      simpa using hr
  | x :: y :: ws, w, h => by
    by_cases hr : isRedir x
    · exact skipRedirs_not_redir ws w (by simpa [skipRedirs, hr] using h)
    · have h2 : w = x ∨ w ∈ skipRedirs (y :: ws) := by simpa [skipRedirs, hr] using h
      rcases h2 with h2 | h2
      · subst h2; simpa using hr
      · exact skipRedirs_not_redir (y :: ws) w h2

/-- C5: whenever the skipping pass leaves at least one token (the claim
presupposes a last remaining argument), the parser succeeds and yields
an argument vector that is a subsequence of the token list from which
every redirection operator and its following target token are excluded
(in particular no operator remains); the background flag is set exactly
when the last remaining token is the background marker, which is then
removed, otherwise the vector is the skipped list unchanged; and the
written array is the argument vector followed by the NULL terminator. -/
theorem parse_command_spec (ts : List String) (h : skipRedirs ts ≠ []) :
    ∃ p : ParsedCmd, parse_command ts = some p ∧
      (∀ w ∈ p.args, isRedir w = false) ∧
      List.Sublist p.args ts ∧
      (p.bg = true ↔ (skipRedirs ts).getLast? = some "&") ∧
      (p.bg = true → p.args = (skipRedirs ts).dropLast) ∧
      (p.bg = false → p.args = skipRedirs ts) ∧
      p.argv = p.args.map some ++ [none] := by
  obtain ⟨w, hw⟩ : ∃ w, (skipRedirs ts).getLast? = some w := by
    cases e : (skipRedirs ts).getLast? with
    | none => exact absurd (List.getLast?_eq_none_iff.mp e) h
    | some w => exact ⟨w, rfl⟩
  by_cases hamp : w = "&"
  · subst hamp
    refine ⟨⟨((skipRedirs ts).dropLast.map some) ++ [none], (skipRedirs ts).dropLast, true⟩,
      ?_, ?_, ?_, ?_, ?_, ?_, ?_⟩
    · simp only [parse_command, hw, if_pos]
    · intro v hv
      exact skipRedirs_not_redir ts v ((List.dropLast_sublist _).subset hv)
    · exact ((List.dropLast_sublist _).trans (skipRedirs_sublist ts))
    · exact ⟨fun _ => hw, fun _ => rfl⟩
    · exact fun _ => rfl
    · intro hc; exact absurd hc (by simp)
    · rfl
  · refine ⟨⟨((skipRedirs ts).map some) ++ [none], skipRedirs ts, false⟩,
      ?_, ?_, ?_, ?_, ?_, ?_, ?_⟩
    · simp [parse_command, hw, hamp]
    · exact skipRedirs_not_redir ts
    · exact skipRedirs_sublist ts
    · constructor
      · intro hc; exact absurd hc (by simp)
      · intro hc
        rw [hw] at hc
        exact absurd (Option.some_injective _ hc) hamp
    · intro hc; exact absurd hc (by simp)
    · exact fun _ => rfl
    · rfl

/-- Witness for C5 on the token sequence of the line "ls > out &". -/
theorem parse_command_spec_witness :
    skipRedirs ["ls", ">", "out", "&"] ≠ [] ∧
    (∃ p : ParsedCmd, parse_command ["ls", ">", "out", "&"] = some p ∧
      (∀ w ∈ p.args, isRedir w = false) ∧
      List.Sublist p.args ["ls", ">", "out", "&"] ∧
      (p.bg = true ↔ (skipRedirs ["ls", ">", "out", "&"]).getLast? = some "&") ∧
      (p.bg = true → p.args = (skipRedirs ["ls", ">", "out", "&"]).dropLast) ∧
      (p.bg = false → p.args = skipRedirs ["ls", ">", "out", "&"]) ∧
      p.argv = p.args.map some ++ [none]) :=
  ⟨by decide, parse_command_spec ["ls", ">", "out", "&"] (by decide)⟩

/-- Without a closing brace in the remainder of the word, the brace
search fails. -/
theorem findBrace_none : ∀ l : List Char, '}' ∉ l → findBrace l = none
  | [], _ => rfl
  | ch :: r, h => by
    have h1 : ¬ch = '}' := fun e => h (e ▸ List.mem_cons_self ch r)
    have h2 : '}' ∉ r := fun m => h (List.mem_cons_of_mem _ m)
    simp [findBrace, h1, findBrace_none r h2]

theorem noRefPairs_tail (x : Char) (xs : List Char) (h : noRefPairs (x :: xs) = true) :
    noRefPairs xs = true := by
  cases xs with
  | nil => rfl
  | cons y ys =>
    have := (Bool.and_eq_true _ _).mp h
    exact this.2

/-- A word with no closing brace and no two-character reference pair
contains no reference the scanner can match. -/
theorem param_scan_none : ∀ w : List Char, '}' ∉ w → noRefPairs w = true →
    param_scan w = none
  | [], _, _ => rfl
  | ch :: r, hb, hp => by
    have hbr : '}' ∉ r := fun m => hb (List.mem_cons_of_mem _ m)
    have ihr : param_scan r = none := param_scan_none r hbr (noRefPairs_tail ch r hp)
    by_cases hd : ch = '$'
    · subst hd
      cases r with
      | nil => rfl
      | cons c2 r2 =>
        have hbr2 : '}' ∉ r2 := fun m => hbr (List.mem_cons_of_mem _ m)
        have ihr2 : param_scan r2 = none :=
          param_scan_none r2 hbr2 (noRefPairs_tail c2 r2 (noRefPairs_tail '$' (c2 :: r2) hp))
        have h1 := ((Bool.and_eq_true _ _).mp hp).1
        simp at h1
        by_cases hbrace : c2 = '{'
        · have hfb : findBrace r2 = none := findBrace_none r2 hbr2
          simp [param_scan, h1.1.1, h1.1.2, h1.2, hbrace, hfb, ihr2]
        · simp [param_scan, h1.1.1, h1.1.2, h1.2, hbrace, ihr2]
    · simp [param_scan, hd, ihr]

/-- C6 (amended): expansion recognizes a braced reference only when the
opening is closed by a later brace, and scanning otherwise resumes
after the unmatched dollar sign; consequently a word containing no
closing brace at all, and no two-character reference pair either, is
returned by the expander completely unchanged under every environment,
covering unterminated references such as a lone open-brace reference. -/
theorem expand_unterminated_amended (env : Env) (w : List Char)
    (h1 : '}' ∉ w) (h2 : noRefPairs w = true) : expandL env w = w := by
  cases w with
  | nil => rfl
  | cons ch r =>
    have hs := param_scan_none (ch :: r) h1 h2
    simp [expandL, expandFuel, hs]

/-- Witness for C6 (amended) on the unterminated word of the six
characters of a dollar, an open brace and the letters of NAME. -/
theorem expand_unterminated_amended_witness :
    ('}' ∉ ['$', '{', 'N', 'A', 'M', 'E'] ∧
      noRefPairs ['$', '{', 'N', 'A', 'M', 'E'] = true) ∧
    expandL [] ['$', '{', 'N', 'A', 'M', 'E'] = ['$', '{', 'N', 'A', 'M', 'E'] :=
  ⟨⟨by decide, by decide⟩,
    expand_unterminated_amended [] ['$', '{', 'N', 'A', 'M', 'E'] (by decide) (by decide)⟩

/-- The word loop copies a run of ordinary characters into the
accumulator one by one. -/
theorem wsWord_plain : ∀ (a acc rest : List Char), (∀ ch ∈ a, plainChar ch) →
    wsWord acc (a ++ rest) = wsWord (acc ++ a) rest
  | [], acc, rest, _ => by simp
  | h :: t, acc, rest, hp => by
    obtain ⟨hs, hbk, hn⟩ := hp h (List.mem_cons_self _ _)
    have hpt : ∀ ch ∈ t, plainChar ch := fun ch m => hp ch (List.mem_cons_of_mem _ m)
    cases e : t ++ rest with
    | nil =>
      obtain ⟨ht, hr⟩ := List.append_eq_nil.mp e
      subst ht; subst hr
      simp [wsWord, hn, hs, hbk]
    | cons x xs =>
      have hstep : wsWord acc (h :: (t ++ rest)) = wsWord (acc ++ [h]) (t ++ rest) := by
        rw [e]; simp [wsWord, hn, hs, hbk]
      rw [List.cons_append, hstep, wsWord_plain t (acc ++ [h]) rest hpt]
      simp

/-- At a backslash the word loop copies the following character
unconditionally and continues after it. -/
theorem wsWord_escape (acc : List Char) (s : Char) (rest : List Char) :
    wsWord acc ('\\' :: s :: rest) = wsWord (acc ++ [s]) rest := by
  simp [wsWord, (by decide : ('\\' : Char) = nulc ↔ False), (by decide : isspaceC '\\' = false)]

theorem wsSkipSpace_nonspace (ch : Char) (r : List Char) (h : isspaceC ch = false) :
    wsSkipSpace (ch :: r) = some (ch :: r) := by
  by_cases hn : ch = nulc <;> simp [wsSkipSpace, h, hn]

theorem wsLoop_nul (fuel wind : Nat) (toks : List (List Char)) (h : fuel ≠ 0) :
    wsLoop fuel wind toks [nulc] = some toks := by
  cases fuel with
  | zero => exact absurd rfl h
  | succ f => simp [wsLoop]

/-- C7: an input line that is a single word in which a whitespace
character is preceded by a backslash (ordinary characters around it,
the word not opening a comment) tokenizes to exactly one token that
contains the whitespace character literally, the backslash discarded. -/
theorem wordsplit_escaped_whitespace (a b : List Char) (s : Char)
    (ha : ∀ ch ∈ a, plainChar ch) (hb : ∀ ch ∈ b, plainChar ch)
    (hhd : a.head? ≠ some '#') (_hs : isspaceC s = true) :
    wordsplit (a ++ '\\' :: s :: b) = some [a ++ s :: b] := by
  obtain ⟨ch, r', he, hsp, hnul, hhash⟩ :
      ∃ ch r', a ++ '\\' :: s :: (b ++ [nulc]) = ch :: r' ∧ isspaceC ch = false ∧
        ¬ch = nulc ∧ ¬ch = '#' := by
    cases a with
    | nil => exact ⟨'\\', s :: (b ++ [nulc]), by simp, by decide, by decide, by decide⟩
    | cons a0 t =>
      obtain ⟨h1, _, h3⟩ := ha a0 (List.mem_cons_self _ _)
      exact ⟨a0, t ++ '\\' :: s :: (b ++ [nulc]), by simp, h1, h3,
        fun e => hhd (by rw [List.head?_cons, e])⟩
  have hword : wsWord [] (a ++ '\\' :: s :: (b ++ [nulc])) = some (a ++ s :: b, [nulc]) := by
    rw [wsWord_plain a [] _ ha]
    simp only [List.nil_append]
    rw [wsWord_escape a s (b ++ [nulc]), wsWord_plain b (a ++ [s]) _ hb]
    simp [wsWord]
  have hskip : wsSkipSpace (a ++ '\\' :: s :: (b ++ [nulc])) =
      some (a ++ '\\' :: s :: (b ++ [nulc])) := by
    rw [he]; exact wsSkipSpace_nonspace ch r' hsp
  have hfull : (a ++ '\\' :: s :: b) ++ [nulc] = a ++ '\\' :: s :: (b ++ [nulc]) := by simp
  have hlen : r'.length ≠ 0 := by
    have hc := congrArg List.length he
    simp at hc
    omega
  rw [wordsplit, hfull, hskip]
  rw [he] at hword ⊢
  simp only [List.length_cons]
  rw [wsLoop, if_neg hnul, if_neg (by decide : ¬(0 : Nat) = 512), if_neg hhash, hword]
  simp only [wsSkipSpace_nonspace nulc [] (by decide), List.nil_append]
  exact wsLoop_nul r'.length (0 + 1) [a ++ s :: b] hlen

/-- Witness for C7 on the line of the four characters e, backslash,
space, f. -/
theorem wordsplit_escaped_whitespace_witness :
    ((∀ ch ∈ ['e'], plainChar ch) ∧ (∀ ch ∈ ['f'], plainChar ch) ∧
      (['e'] : List Char).head? ≠ some '#' ∧ isspaceC ' ' = true) ∧
    wordsplit (['e'] ++ '\\' :: ' ' :: ['f']) = some [['e'] ++ ' ' :: ['f']] :=
  ⟨⟨by decide, by decide, by decide, by decide⟩,
    wordsplit_escaped_whitespace ['e'] ['f'] ' ' (by decide) (by decide) (by decide) (by decide)⟩

end Smallsh
